import Mathlib

/-!
Shallow embedding of the GitHub Trending Analyzer (src/app/main.py) in Lean 4.

The source is a FastAPI service with one analysis pipeline:
fetch trending HTML -> extract repository records -> fetch topics per record
-> build a weighted graph -> cache the result.

The embedding models the code at the level just below the HTML parser: a
trending document is a list of entry elements (`RepoEntry`), each carrying the
texts that BeautifulSoup queries would return (`h2 > a` text, description
paragraph, star/fork counter texts, `span[itemprop=programmingLanguage]`
text), with `Option` for an absent element.  Network fetches are oracles
passed in as arguments (`Except` for the trending fetch, which can raise an
HTTPException; a plain function for the per-repository topic fetch, which the
source fail-softens to a list).  Effects (cache lookups, network fetches,
cache stores) are recorded in an explicit trace so that short-circuiting
claims are statable.
-/

namespace GTA

/-- Python values appearing as keyword arguments to a pydantic model
constructor (the record dicts hold strings and ints only). -/
inductive PyVal where
  | s (v : String)
  | i (v : Int)
deriving DecidableEq, Repr

/-- Models main.py:19-24, `class Node(BaseModel)`: fields `id`, `description`,
`stars`, `forks`, `language`, all required (declared with `Field(...)`). -/
structure Node where
  id : String
  description : String
  stars : Int
  forks : Int
  language : String
deriving DecidableEq, Repr

/-- Models main.py:26-29, `class Edge(BaseModel)`.  In the source the `weight`
field is declared `float`, but the only value ever assigned to it is
`common_topics_count`, a Python `int` (main.py:224, 229); the similarity score
is computed and discarded.  The embedding therefore carries the assigned
integer value. -/
structure Edge where
  source : String
  target : String
  weight : Nat
deriving DecidableEq, Repr

/-- Models main.py:31-33, `class GraphData(BaseModel)`. -/
structure GraphData where
  nodes : List Node
  edges : List Edge
deriving DecidableEq, Repr

/-- An HTTPException as raised by the source: a status code and a detail
string. -/
structure HttpErr where
  status : Int
  detail : String
deriving DecidableEq, Repr

/-- One `article.Box-row` entry of the trending listing, abstracted to the
texts the extractor reads from it.  `nameText` is `none` when the `h2` header
or its `a` link is missing (main.py:97-102); the other fields are `none` when
the corresponding element is absent. -/
structure RepoEntry where
  nameText : Option String
  descriptionText : Option String
  starsText : Option String
  forksText : Option String
  languageText : Option String
deriving DecidableEq, Repr

/-- One extracted repository record: the dict appended at main.py:119-125,
with keys `name`, `description`, `stars`, `forks`, `language`. -/
structure RepoData where
  name : String
  description : String
  stars : Int
  forks : Int
  language : String
deriving DecidableEq, Repr

/-- Python `str.lower()`, modelled character-wise over the string's
characters (kernel-evaluable, unlike core `String.toLower`). -/
def pyLower (s : String) : String := ⟨s.data.map Char.toLower⟩

/-- Python `str.strip()`: remove leading and trailing whitespace. -/
def pyStrip (s : String) : String :=
  ⟨(((s.data.dropWhile Char.isWhitespace).reverse.dropWhile
      Char.isWhitespace).reverse)⟩

/-- The digits of a decimal literal folded to a `Nat`; `none` unless the
character list is non-empty and all digits. -/
def digitsToNat (l : List Char) : Option Nat :=
  if l ≠ [] ∧ l.all Char.isDigit then
    some (l.foldl (fun a c => 10 * a + (c.toNat - 48)) 0)
  else none

/-- Python `int(s)` on an already-stripped string: an optional sign followed
by at least one digit, `none` on a `ValueError`. -/
def parsePyInt (s : String) : Option Int :=
  match s.data with
  | '-' :: ds => (digitsToNat ds).map (fun n => -(n : Int))
  | '+' :: ds => (digitsToNat ds).map (fun n => (n : Int))
  | ds => (digitsToNat ds).map (fun n => (n : Int))

/-- `text.replace(",", "")` at main.py:108 and 111. -/
def removeCommas (s : String) : String := ⟨s.data.filter (fun c => c ≠ ',')⟩

/-- The body of the extraction loop for one entry (main.py:96-127).  Returns
`none` when the entry is skipped: missing header/link (`continue` at
main.py:99, 102), a `ValueError` from `int(...)` caught by the
`except Exception` at main.py:126, or a language mismatch (`continue` at
main.py:117). -/
def processEntry (language : String) (e : RepoEntry) : Option RepoData :=
  match e.nameText with
  | none => none
  | some nm =>
    let repo_name := pyStrip nm
    let description := ((e.descriptionText).map pyStrip).getD "No description provided."
    let stars_text := ((e.starsText).map pyStrip).getD "0"
    match parsePyInt (removeCommas stars_text) with
    | none => none
    | some stars =>
      let forks_text := ((e.forksText).map pyStrip).getD "0"
      match parsePyInt (removeCommas forks_text) with
      | none => none
      | some forks =>
        let repo_language :=
          match e.languageText with
          | some t => pyLower (pyStrip t)
          | none => "Unknown"
        if repo_language ≠ pyLower language then none
        else some ⟨repo_name, description, stars, forks, repo_language⟩

/-- The extraction loop of `extract_repo_data` (main.py:93-127):
`for i, repo_element in enumerate(repo_elements): if i >= repo_limit: break`,
then process the entry, appending the record when it is kept.  `i` counts
every iterated entry, matching or not. -/
def extractLoop (language : String) (repo_limit : Int) (i : Nat) :
    List RepoEntry → List RepoData
  | [] => []
  | e :: rest =>
    if (i : Int) ≥ repo_limit then []
    else
      match processEntry language e with
      | some r => r :: extractLoop language repo_limit (i + 1) rest
      | none => extractLoop language repo_limit (i + 1) rest

/-- Models main.py:77-129, `extract_repo_data(html_content, language,
repo_limit)`, with the parsed document given as its entry list. -/
def extract_repo_data (entries : List RepoEntry) (language : String)
    (repo_limit : Int) : List RepoData :=
  extractLoop language repo_limit 0 entries

/-- Pydantic keyword arguments produced by `Node(**repo)` at main.py:205: the
keys of the record dict built at main.py:119-125. -/
def repoKwargs (r : RepoData) : List (String × PyVal) :=
  [("name", .s r.name), ("description", .s r.description),
   ("stars", .i r.stars), ("forks", .i r.forks), ("language", .s r.language)]

/-- Look up a required string field among the keyword arguments. -/
def kwStr (kw : List (String × PyVal)) (k : String) : Option String :=
  match kw.lookup k with
  | some (.s v) => some v
  | _ => none

/-- Look up a required int field among the keyword arguments. -/
def kwInt (kw : List (String × PyVal)) (k : String) : Option Int :=
  match kw.lookup k with
  | some (.i v) => some v
  | _ => none

/-- Pydantic validation performed by `Node(**kwargs)`: every field of the
`Node` model (main.py:19-24) is required, extra keys are ignored, and a
missing required field raises a ValidationError. -/
def nodeOfKwargs (kw : List (String × PyVal)) : Except String Node :=
  match kwStr kw "id" with
  | none => .error "1 validation error for Node: id field required"
  | some id =>
    match kwStr kw "description" with
    | none => .error "1 validation error for Node: description field required"
    | some description =>
      match kwInt kw "stars" with
      | none => .error "1 validation error for Node: stars field required"
      | some stars =>
        match kwInt kw "forks" with
        | none => .error "1 validation error for Node: forks field required"
        | some forks =>
          match kwStr kw "language" with
          | none => .error "1 validation error for Node: language field required"
          | some language => .ok ⟨id, description, stars, forks, language⟩

/-- The list comprehension `nodes = [Node(**repo) for repo in repos_data]` at
main.py:205: the first ValidationError aborts the whole comprehension. -/
def buildNodes (repos_data : List RepoData) : Except String (List Node) :=
  repos_data.mapM (fun r => nodeOfKwargs (repoKwargs r))

/-- Python `range(a, b)`. -/
def pyRange (a b : Nat) : List Nat := List.range' a (b - a)

/-- The nested index loops at main.py:213-214:
`for i in range(len(repos_data)): for j in range(i + 1, len(repos_data))`. -/
def lexPairs (n : Nat) : List (Nat × Nat) :=
  (pyRange 0 n).flatMap (fun i => (pyRange (i + 1) n).map (fun j => (i, j)))

/-- `len(set(topics1) & set(topics2))` at main.py:219 for the topic lists of
two repository names under a topics mapping. -/
def edgeWeight (topics : String → List String) (n1 n2 : String) : Nat :=
  ((topics n1).toFinset ∩ (topics n2).toFinset).card

/-- The edge-building loops at main.py:213-229: for each index pair
`(i, j)` with `i < j` in order, compute the shared-topic count of the two
records' names and append an `Edge(source, target, weight)` iff it is
positive.  (The similarity score computed at main.py:220 is discarded;
`edge_weight = common_topics_count` at main.py:224.) -/
def buildEdges (repos_data : List RepoData) (topics : String → List String) :
    List Edge :=
  (lexPairs repos_data.length).filterMap (fun p =>
    match repos_data.get? p.1, repos_data.get? p.2 with
    | some r1, some r2 =>
      if edgeWeight topics r1.name r2.name > 0 then
        some ⟨r1.name, r2.name, edgeWeight topics r1.name r2.name⟩
      else none
    | _, _ => none)

/-- The sequential enrichment loop at main.py:209-211: build the
`repo_topics` dict by assigning `repo_topics[repo["name"]] = await
fetch_repository_topics(repo["name"])` in record order. -/
def buildTopicsAssoc (repos_data : List RepoData)
    (topicsFetch : String → List String) : List (String × List String) :=
  repos_data.map (fun r => (r.name, topicsFetch r.name))

/-- Python dict semantics for an insertion sequence: start empty, each
assignment overwrites, so lookup finds the LAST inserted value for a key. -/
def pyDict (l : List (String × List String)) : String → Option (List String) :=
  l.foldl (fun d kv => fun k => if k = kv.1 then some kv.2 else d k)
    (fun _ => none)

/-- `repo_topics.get(name, [])` at main.py:217-218. -/
def pyDictGet (l : List (String × List String)) (k : String) : List String :=
  (pyDict l k).getD []

/-- An observable side effect of one request, in the order performed. -/
inductive Effect where
  | cacheLookup (key : String)
  | fetchTrending (language : String)
  | fetchTopics (repo : String)
  | cacheStore (key : String)
deriving DecidableEq, Repr

/-- Models main.py:187-235, `analyze_repositories(language, repo_limit)`.
The trending fetch outcome is the `fetched` oracle (an HTTPException or the
parsed entry list); the per-repository topic fetch is the `topicsFetch`
oracle, already fail-softened to a list as `fetch_repository_topics`
guarantees.  Returns the result together with the trace of network effects.
The `except Exception` at main.py:234 converts a ValidationError from
`Node(**repo)` into a 500 HTTPException; note the node list comprehension at
main.py:205 runs BEFORE the topic-fetch loop at main.py:209-211. -/
def analyze_repositories (fetched : Except HttpErr (List RepoEntry))
    (topicsFetch : String → List String) (language : String)
    (repo_limit : Int) : Except HttpErr GraphData × List Effect :=
  match fetched with
  | .error e => (.error e, [.fetchTrending language])
  | .ok entries =>
    let repos_data := extract_repo_data entries language repo_limit
    match buildNodes repos_data with
    | .error msg =>
      (.error ⟨500, "Error analyzing repositories: " ++ msg⟩,
       [.fetchTrending language])
    | .ok nodes =>
      let assoc := buildTopicsAssoc repos_data topicsFetch
      let edges := buildEdges repos_data (pyDictGet assoc)
      (.ok ⟨nodes, edges⟩,
       .fetchTrending language :: repos_data.map (fun r => .fetchTopics r.name))

/-- `cache_key = f"{language}:{repo_limit}"` at main.py:278. -/
def cache_key (language : String) (repo_limit : Int) : String :=
  language ++ ":" ++ toString repo_limit

/-- The body of an HTTP response: either a graph payload or a
`{"detail": ...}` error payload. -/
inductive RespBody where
  | graph (g : GraphData)
  | detail (msg : String)
deriving DecidableEq, Repr

/-- The outcome of one request to the endpoint: status code, body, and the
trace of cache/network effects in the order performed. -/
structure Outcome where
  status : Int
  body : RespBody
  effects : List Effect
deriving DecidableEq, Repr

/-- Models main.py:247-289, `get_trending_repos(language, repo_limit)`.
Validation (main.py:269-276) runs before the cache key is formed; the cache
is the `cached` oracle (the stored dict of a previous GraphData, if any, for
a given key); on a miss the pipeline runs and its result is stored under the
key. -/
def get_trending_repos (language : String) (repo_limit : Int)
    (cached : String → Option GraphData)
    (fetched : Except HttpErr (List RepoEntry))
    (topicsFetch : String → List String) : Outcome :=
  if language = "" then
    ⟨400, .detail "Language must be provided.", []⟩
  else if pyLower language = "all" ∨ pyLower language = "unknown" then
    ⟨400, .detail "Language 'all' or 'unknown' is not supported.", []⟩
  else if repo_limit ≤ 0 then
    ⟨400, .detail "repo_limit must be greater than 0.", []⟩
  else
    let key := cache_key language repo_limit
    match cached key with
    | some g => ⟨200, .graph g, [.cacheLookup key]⟩
    | none =>
      match analyze_repositories fetched topicsFetch language repo_limit with
      | (.error e, effs) => ⟨e.status, .detail e.detail, .cacheLookup key :: effs⟩
      | (.ok g, effs) =>
        ⟨200, .graph g, (.cacheLookup key :: effs) ++ [.cacheStore key]⟩

/-! Concrete fixtures used by counterexamples and witnesses. -/

/-- A trending-page entry declaring language Python. -/
def entryPy : RepoEntry :=
  ⟨some "owner/py", some "desc", some "1,234", some "56", some "Python"⟩

/-- A trending-page entry declaring language Rust. -/
def entryRust : RepoEntry :=
  ⟨some "owner/rs", none, none, none, some "Rust"⟩

/-- The record extracted from `entryPy` for request language python. -/
def recPy : RepoData := ⟨"owner/py", "desc", 1234, 56, "python"⟩

/-- Minimal records for graph-building fixtures. -/
def recA : RepoData := ⟨"a", "da", 0, 0, "python"⟩

/-- Second graph-building fixture record. -/
def recB : RepoData := ⟨"b", "db", 0, 0, "python"⟩

/-- Third graph-building fixture record. -/
def recC : RepoData := ⟨"c", "dc", 0, 0, "python"⟩

/-- A topics oracle for the fixtures: a and b share one topic, c is
disjoint. -/
def topicsABC : String → List String :=
  fun n => if n = "a" then ["x", "y"] else if n = "b" then ["y", "z"] else ["q"]

/-- The position of a repository name in extraction order: index of the first
record with that name in the extracted sequence. -/
def nameIdx (repos_data : List RepoData) (nm : String) : Nat :=
  (repos_data.map RepoData.name).indexOf nm

end GTA

namespace GTA

/-- The extraction loop is: take the first `repo_limit - i` entries (every
entry consumes one unit of the budget) and keep those `processEntry`
accepts. -/
theorem extractLoop_take_filterMap (language : String) (repo_limit : Int)
    (l : List RepoEntry) :
    ∀ i : Nat, extractLoop language repo_limit i l =
      (l.take (repo_limit - i).toNat).filterMap (processEntry language) := by
  induction l with
  | nil => intro i; simp [extractLoop]
  | cons e rest ih =>
    intro i
    by_cases h : (i : Int) ≥ repo_limit
    · have h0 : (repo_limit - (i : Int)).toNat = 0 := by omega
      simp [extractLoop, h, h0]
    · have h1 : (repo_limit - (i : Int)).toNat =
          (repo_limit - ((i : Int) + 1)).toNat + 1 := by omega
      rw [extractLoop, if_neg h, h1]
      rw [List.take_succ_cons, List.filterMap_cons]
      cases hp : processEntry language e with
      | none => rw [ih (i + 1)]; push_cast; ring_nf
      | some r => rw [ih (i + 1)]; push_cast; ring_nf

/-- `extract_repo_data` examines the first `limit` entries and keeps the
accepted ones. -/
theorem extract_eq_take_filterMap (entries : List RepoEntry)
    (language : String) (repo_limit : Int) :
    extract_repo_data entries language repo_limit =
      (entries.take repo_limit.toNat).filterMap (processEntry language) := by
  have h := extractLoop_take_filterMap language repo_limit entries 0
  simpa [extract_repo_data] using h

/-- A record accepted by `processEntry` carries exactly the lowercased
requested language. -/
theorem processEntry_language (language : String) (e : RepoEntry)
    (r : RepoData) (h : processEntry language e = some r) :
    r.language = pyLower language := by
  unfold processEntry at h
  dsimp only at h
  split at h
  · exact absurd h (by simp)
  split at h
  · exact absurd h (by simp)
  split at h
  · exact absurd h (by simp)
  split at h
  · exact absurd h (by simp)
  rename_i hcond
  injection h with h2
  rw [← h2]
  simpa using of_not_not hcond

/-- C1: the claim states that for a non-empty extraction the Building stage
cannot fail and the resulting nodes are the extracted records verbatim.  The
code contradicts this: `Node(**repo)` at main.py:205 passes the record dict,
whose key is `name` (main.py:119-125), to the `Node` model, whose required
field is `id` (main.py:19-24); pydantic raises a ValidationError, which the
`except Exception` at main.py:234 converts to an HTTP 500.  Evaluated here at
a one-record input: the pipeline errors instead of producing the record as a
node. -/
theorem building_fails_on_nonempty_extraction :
    (analyze_repositories (.ok [entryPy]) (fun _ => []) "python" 10).1 =
      .error ⟨500, "Error analyzing repositories: " ++
        "1 validation error for Node: id field required"⟩ ∧
    extract_repo_data [entryPy] "python" 10 = [recPy] := by
  constructor
  · rfl
  · rfl

/-- C2 counterexample: with a valid request (language python, limit 1), a
cache miss, and a successfully fetched document whose only entry is a Rust
repository, extraction yields zero matching records, yet the endpoint
responds 200 with an empty graph — not 404 with detail
"No trending repositories found." as the claim states. -/
theorem zero_records_counterexample :
    extract_repo_data [entryRust] "python" 1 = [] ∧
    (get_trending_repos "python" 1 (fun _ => none) (.ok [entryRust])
      (fun _ => [])).status = 200 ∧
    (get_trending_repos "python" 1 (fun _ => none) (.ok [entryRust])
      (fun _ => [])).body ≠ .detail "No trending repositories found." := by
  refine ⟨rfl, rfl, ?_⟩
  decide

/-- C3 counterexample: a document whose first entry is Rust and second is
Python, requested language python, limit 1.  The Rust entry is dropped but
still counts toward the limit (`if i >= repo_limit: break` at main.py:94
counts every iterated entry), so extraction returns zero records even though
a matching, parseable entry exists later in the document — contradicting the
claim that non-matching entries do not count and extraction stops only after
1 matching entry or document exhaustion. -/
theorem limit_counts_nonmatching_counterexample :
    extract_repo_data [entryRust, entryPy] "python" 1 = [] ∧
    processEntry "python" entryPy = some recPy := by
  exact ⟨rfl, rfl⟩

/-- C4 counterexample: the cache key at main.py:278 interpolates the language
verbatim, without the lowercasing that RepoExtractor's language matching
applies (main.py:116).  Requests "Python" and "python" with limit 5 are equal
up to case (same normalized language), yet produce different cache keys; a
second request "Python" does not hit a cache entry stored under the
"python" key and performs a fresh trending fetch. -/
theorem cache_key_not_normalized_counterexample :
    cache_key "Python" 5 ≠ cache_key "python" 5 ∧
    pyLower "Python" = pyLower "python" ∧
    ((get_trending_repos "Python" 5
        (fun k => if k = cache_key "python" 5 then some ⟨[], []⟩ else none)
        (.ok []) (fun _ => [])).effects.contains (.fetchTrending "Python")
      = true) := by
  refine ⟨by decide, by decide, ?_⟩
  rfl

/-- C3 (amended): for every listing document, requested language, and limit
greater than 0, the limit counts SCANNED entries, not matching entries:
extraction examines only the first `limit` entries of the document (every
iterated entry, matching or not, consumes the limit) and returns exactly the
accepted entries among those. -/
theorem extraction_takes_limit_scanned_entries (entries : List RepoEntry)
    (language : String) (repo_limit : Int) (_h : 0 < repo_limit) :
    extract_repo_data entries language repo_limit =
      (entries.take repo_limit.toNat).filterMap (processEntry language) :=
  extract_eq_take_filterMap entries language repo_limit

/-- Witness for the amended C3 theorem at a concrete input: limit 2 over a
Rust entry followed by a Python entry, requesting python. -/
theorem extraction_takes_limit_scanned_entries_witness :
    (0 : Int) < 2 ∧
    extract_repo_data [entryRust, entryPy] "python" 2 =
      ([entryRust, entryPy].take (2 : Int).toNat).filterMap
        (processEntry "python") :=
  ⟨by decide, extraction_takes_limit_scanned_entries [entryRust, entryPy]
    "python" 2 (by decide)⟩

/-- C7: every record kept by extraction has the lowercased requested language
as its `language` field (the comparison at main.py:116 keeps an entry only
when its lowercased declared language equals the lowercased requested
language; an absent language tag defaults and can never match a lowercased
request), so every returned node's language equals the requested language
case-insensitively. -/
theorem extracted_record_language_matches_request (entries : List RepoEntry)
    (language : String) (repo_limit : Int) (r : RepoData)
    (hr : r ∈ extract_repo_data entries language repo_limit) :
    r.language = pyLower language := by
  rw [extract_eq_take_filterMap] at hr
  obtain ⟨e, _, he⟩ := List.mem_filterMap.mp hr
  exact processEntry_language language e r he

/-- Witness for C7 at a concrete input: the Python record extracted from the
fixture document. -/
theorem extracted_record_language_matches_request_witness :
    recPy ∈ extract_repo_data [entryRust, entryPy] "python" 2 ∧
    recPy.language = pyLower "python" :=
  ⟨by decide, extracted_record_language_matches_request [entryRust, entryPy]
    "python" 2 recPy (by decide)⟩

/-- C8: an empty language, a language lowercasing to "all" or "unknown", or a
non-positive repo_limit is rejected with status 400 and an empty effect
trace: no cache lookup, no trending fetch, no topic fetch, no cache store —
validation (main.py:269-276) runs before the cache key is even formed. -/
theorem validation_short_circuits_before_cache_and_network
    (language : String) (repo_limit : Int)
    (cached : String → Option GraphData)
    (fetched : Except HttpErr (List RepoEntry))
    (topicsFetch : String → List String)
    (h : language = "" ∨ pyLower language = "all" ∨
      pyLower language = "unknown" ∨ repo_limit ≤ 0) :
    (get_trending_repos language repo_limit cached fetched topicsFetch).status
        = 400 ∧
    (get_trending_repos language repo_limit cached fetched topicsFetch).effects
        = [] := by
  unfold get_trending_repos
  split_ifs with h1 h2 h3
  · exact ⟨rfl, rfl⟩
  · exact ⟨rfl, rfl⟩
  · exact ⟨rfl, rfl⟩
  · rcases h with h | h | h | h
    · exact absurd h h1
    · exact absurd (Or.inl h) h2
    · exact absurd (Or.inr h) h2
    · exact absurd h h3

/-- Witness for C8 at a concrete input: language "ALL" (lowercases to "all"),
limit 5, a populated-looking cache and a would-succeed fetch. -/
theorem validation_short_circuits_witness :
    ("ALL" = "" ∨ pyLower "ALL" = "all" ∨ pyLower "ALL" = "unknown" ∨
      (5 : Int) ≤ 0) ∧
    ((get_trending_repos "ALL" 5 (fun _ => some ⟨[], []⟩) (.ok [entryPy])
        (fun _ => [])).status = 400 ∧
     (get_trending_repos "ALL" 5 (fun _ => some ⟨[], []⟩) (.ok [entryPy])
        (fun _ => [])).effects = []) :=
  ⟨by decide, validation_short_circuits_before_cache_and_network "ALL" 5
    (fun _ => some ⟨[], []⟩) (.ok [entryPy]) (fun _ => []) (by decide)⟩

/-- C4 (amended): the cache key (main.py:278) embeds the language string
verbatim, with no normalization: two requests with equal limits share a cache
key if and only if their language strings are exactly (case-sensitively)
equal.  Case-differing languages that RepoExtractor treats as the same
request therefore use distinct cache entries. -/
theorem cache_key_equal_iff_language_equal (l1 l2 : String) (lim : Int) :
    cache_key l1 lim = cache_key l2 lim ↔ l1 = l2 := by
  constructor
  · intro h
    have hd := congrArg String.data h
    rw [cache_key, cache_key] at hd
    simp only [String.data_append] at hd
    rw [List.append_assoc, List.append_assoc] at hd
    exact String.ext (List.append_cancel_right hd)
  · intro h; rw [h]

/-- C2 (amended): for every valid request (non-empty language not lowercasing
to "all"/"unknown", positive limit) that misses the cache and fetches its
document successfully, zero matching extracted records yield a 200 success
response with an empty node list and empty edge list — no NotFound is
signalled and no 404 is produced. -/
theorem zero_records_yield_empty_success (language : String)
    (repo_limit : Int) (cached : String → Option GraphData)
    (entries : List RepoEntry) (topicsFetch : String → List String)
    (h1 : language ≠ "") (h2 : pyLower language ≠ "all")
    (h3 : pyLower language ≠ "unknown") (h4 : 0 < repo_limit)
    (h5 : cached (cache_key language repo_limit) = none)
    (h6 : extract_repo_data entries language repo_limit = []) :
    get_trending_repos language repo_limit cached (.ok entries) topicsFetch =
      ⟨200, .graph ⟨[], []⟩,
       [.cacheLookup (cache_key language repo_limit),
        .fetchTrending language,
        .cacheStore (cache_key language repo_limit)]⟩ := by
  unfold get_trending_repos
  rw [if_neg h1, if_neg (not_or.mpr ⟨h2, h3⟩), if_neg (by omega)]
  dsimp only
  rw [h5]
  unfold analyze_repositories
  dsimp only
  rw [h6]
  rfl

/-- Witness for the amended C2 theorem at a concrete input: language python,
limit 1, empty cache, a document with a single Rust entry. -/
theorem zero_records_yield_empty_success_witness :
    ("python" ≠ "" ∧ pyLower "python" ≠ "all" ∧ pyLower "python" ≠ "unknown" ∧
      (0 : Int) < 1 ∧
      (fun _ : String => (none : Option GraphData)) (cache_key "python" 1)
        = none ∧
      extract_repo_data [entryRust] "python" 1 = []) ∧
    get_trending_repos "python" 1 (fun _ => none) (.ok [entryRust])
        (fun _ => []) =
      ⟨200, .graph ⟨[], []⟩,
       [.cacheLookup (cache_key "python" 1), .fetchTrending "python",
        .cacheStore (cache_key "python" 1)]⟩ :=
  ⟨⟨by decide, by decide, by decide, by decide, rfl, by decide⟩,
   zero_records_yield_empty_success "python" 1 (fun _ => none) [entryRust]
     (fun _ => []) (by decide) (by decide) (by decide) (by decide) rfl
     (by decide)⟩

/-- Membership in `pyRange a b` is exactly the half-open interval. -/
theorem mem_pyRange {a b m : Nat} : m ∈ pyRange a b ↔ a ≤ m ∧ m < b := by
  unfold pyRange
  rw [List.mem_range'_1]
  omega

/-- Membership in the nested-loop pair list: pairs `(i, j)` with
`i < j < n`. -/
theorem mem_lexPairs {n : Nat} {p : Nat × Nat} :
    p ∈ lexPairs n ↔ p.1 < p.2 ∧ p.2 < n := by
  obtain ⟨i, j⟩ := p
  simp only [lexPairs, List.mem_flatMap, List.mem_map, mem_pyRange]
  constructor
  · rintro ⟨a, ⟨ha0, han⟩, b, ⟨hab, hbn⟩, heq⟩
    cases heq
    exact ⟨by omega, hbn⟩
  · rintro ⟨hij, hjn⟩
    exact ⟨i, ⟨Nat.zero_le i, by omega⟩, j, ⟨by omega, hjn⟩, rfl⟩

/-- Every edge produced by `buildEdges` comes from an index pair `(i, j)`
with `i < j`, carries the two records' names as source and target, and has
the positive shared-topic count of those names as its weight. -/
theorem buildEdges_mem_inv (repos_data : List RepoData)
    (topics : String → List String) (e : Edge)
    (he : e ∈ buildEdges repos_data topics) :
    0 < e.weight ∧ e.weight = edgeWeight topics e.source e.target ∧
    ∃ (i j : Nat) (hi : i < repos_data.length) (hj : j < repos_data.length),
      i < j ∧ e.source = (repos_data.get ⟨i, hi⟩).name ∧
        e.target = (repos_data.get ⟨j, hj⟩).name := by
  unfold buildEdges at he
  obtain ⟨p, hp, hfp⟩ := List.mem_filterMap.mp he
  obtain ⟨hpp, hpn⟩ := mem_lexPairs.mp hp
  have hi : p.1 < repos_data.length := lt_trans hpp hpn
  rw [List.get?_eq_get hi, List.get?_eq_get hpn] at hfp
  dsimp only at hfp
  split at hfp
  · rename_i hw
    injection hfp with hfp
    subst hfp
    exact ⟨hw, rfl, p.1, p.2, hi, hpn, hpp, rfl, rfl⟩
  · cases hfp

/-- Conversely, an index pair `(i, j)` with `i < j` and a positive
shared-topic count contributes its edge to `buildEdges`. -/
theorem buildEdges_pair_mem (repos_data : List RepoData)
    (topics : String → List String) (i j : Nat)
    (hi : i < repos_data.length) (hj : j < repos_data.length) (hij : i < j)
    (hw : 0 < edgeWeight topics (repos_data.get ⟨i, hi⟩).name
      (repos_data.get ⟨j, hj⟩).name) :
    (⟨(repos_data.get ⟨i, hi⟩).name, (repos_data.get ⟨j, hj⟩).name,
      edgeWeight topics (repos_data.get ⟨i, hi⟩).name
        (repos_data.get ⟨j, hj⟩).name⟩ : Edge) ∈
      buildEdges repos_data topics := by
  unfold buildEdges
  apply List.mem_filterMap.mpr
  refine ⟨(i, j), mem_lexPairs.mpr ⟨hij, hj⟩, ?_⟩
  rw [List.get?_eq_get hi, List.get?_eq_get hj]
  dsimp only
  rw [if_pos hw]

/-- C10: every edge present in a built graph has a weight that is a positive
integer — at least 1, an integer by construction (the source assigns the
`int` value `common_topics_count` at main.py:224, never the float similarity
score) — equal to the shared-topic count of its two endpoint names. -/
theorem edge_weight_positive_shared_topic_count
    (repos_data : List RepoData) (topics : String → List String) (e : Edge)
    (he : e ∈ buildEdges repos_data topics) :
    1 ≤ e.weight ∧
    e.weight = ((topics e.source).toFinset ∩ (topics e.target).toFinset).card
    := by
  obtain ⟨hw, hweq, -⟩ := buildEdges_mem_inv repos_data topics e he
  exact ⟨hw, hweq⟩

/-- Witness for C10 at a concrete input: the single a-b edge of the fixture
graph. -/
theorem edge_weight_positive_shared_topic_count_witness :
    (⟨"a", "b", 1⟩ : Edge) ∈ buildEdges [recA, recB, recC] topicsABC ∧
    (1 ≤ (⟨"a", "b", 1⟩ : Edge).weight ∧
      (⟨"a", "b", 1⟩ : Edge).weight =
        ((topicsABC "a").toFinset ∩ (topicsABC "b").toFinset).card) :=
  ⟨by decide, edge_weight_positive_shared_topic_count [recA, recB, recC]
    topicsABC ⟨"a", "b", 1⟩ (by decide)⟩

/-- C5: for every record sequence, topic mapping, and index pair `(i, j)`
with `i < j`, an edge whose source and target are the names of records `i`
and `j` is present in the built graph iff the intersection of their topic
sets is non-empty, and any such present edge's weight equals exactly the size
of that intersection. -/
theorem edge_present_iff_shared_topics (repos_data : List RepoData)
    (topics : String → List String) (i j : Nat) (hij : i < j)
    (hj : j < repos_data.length) :
    ((∃ e ∈ buildEdges repos_data topics,
        e.source = (repos_data.get ⟨i, lt_trans hij hj⟩).name ∧
        e.target = (repos_data.get ⟨j, hj⟩).name) ↔
      ((topics (repos_data.get ⟨i, lt_trans hij hj⟩).name).toFinset ∩
        (topics (repos_data.get ⟨j, hj⟩).name).toFinset).Nonempty) ∧
    (∀ e ∈ buildEdges repos_data topics,
      e.source = (repos_data.get ⟨i, lt_trans hij hj⟩).name →
      e.target = (repos_data.get ⟨j, hj⟩).name →
      e.weight =
        ((topics (repos_data.get ⟨i, lt_trans hij hj⟩).name).toFinset ∩
          (topics (repos_data.get ⟨j, hj⟩).name).toFinset).card) := by
  constructor
  · constructor
    · rintro ⟨e, he, hs, ht⟩
      obtain ⟨hw, hweq, -⟩ := buildEdges_mem_inv repos_data topics e he
      rw [hs, ht] at hweq
      rw [← Finset.card_pos]
      have : e.weight =
          ((topics (repos_data.get ⟨i, lt_trans hij hj⟩).name).toFinset ∩
            (topics (repos_data.get ⟨j, hj⟩).name).toFinset).card := hweq
      omega
    · intro hne
      have hw : 0 < edgeWeight topics
          (repos_data.get ⟨i, lt_trans hij hj⟩).name
          (repos_data.get ⟨j, hj⟩).name := by
        unfold edgeWeight
        exact Finset.card_pos.mpr hne
      exact ⟨_, buildEdges_pair_mem repos_data topics i j
        (lt_trans hij hj) hj hij hw, rfl, rfl⟩
  · intro e he hs ht
    obtain ⟨-, hweq, -⟩ := buildEdges_mem_inv repos_data topics e he
    rw [hs, ht] at hweq
    exact hweq

/-- Witness for C5 at a concrete input: records a, b, c with topics
`{x, y}`, `{y, z}`, `{q}`, index pair (0, 1). -/
theorem edge_present_iff_shared_topics_witness :
    ((0 : Nat) < 1 ∧ 1 < ([recA, recB, recC] : List RepoData).length) ∧
    (((∃ e ∈ buildEdges [recA, recB, recC] topicsABC,
        e.source = (([recA, recB, recC] : List RepoData).get
          ⟨0, by decide⟩).name ∧
        e.target = (([recA, recB, recC] : List RepoData).get
          ⟨1, by decide⟩).name) ↔
      ((topicsABC (([recA, recB, recC] : List RepoData).get
          ⟨0, by decide⟩).name).toFinset ∩
        (topicsABC (([recA, recB, recC] : List RepoData).get
          ⟨1, by decide⟩).name).toFinset).Nonempty) ∧
    (∀ e ∈ buildEdges [recA, recB, recC] topicsABC,
      e.source = (([recA, recB, recC] : List RepoData).get
        ⟨0, by decide⟩).name →
      e.target = (([recA, recB, recC] : List RepoData).get
        ⟨1, by decide⟩).name →
      e.weight =
        ((topicsABC (([recA, recB, recC] : List RepoData).get
            ⟨0, by decide⟩).name).toFinset ∩
          (topicsABC (([recA, recB, recC] : List RepoData).get
            ⟨1, by decide⟩).name).toFinset).card)) :=
  ⟨⟨by decide, by decide⟩,
   edge_present_iff_shared_topics [recA, recB, recC] topicsABC 0 1
     (by decide) (by decide)⟩

/-- The nested loops enumerate index pairs in strictly increasing
lexicographic order. -/
theorem lexPairs_pairwise (n : Nat) :
    (lexPairs n).Pairwise
      (fun p q => p.1 < q.1 ∨ (p.1 = q.1 ∧ p.2 < q.2)) := by
  unfold lexPairs
  rw [List.flatMap_def, List.pairwise_flatten]
  constructor
  · intro l' hl'
    obtain ⟨i, hi, rfl⟩ := List.mem_map.mp hl'
    rw [List.pairwise_map]
    refine List.Pairwise.imp ?_ (List.pairwise_lt_range' (i + 1) (n - (i + 1)))
    intro a b hab
    exact Or.inr ⟨rfl, hab⟩
  · rw [List.pairwise_map]
    refine List.Pairwise.imp ?_ (List.pairwise_lt_range' 0 n)
    intro a b hab
    intro x hx y hy
    obtain ⟨ja, _, rfl⟩ := List.mem_map.mp hx
    obtain ⟨jb, _, rfl⟩ := List.mem_map.mp hy
    exact Or.inl hab

/-- Under distinct record names, the extraction-order index of the `i`-th
record's name is `i`. -/
theorem nameIdx_get (repos_data : List RepoData)
    (hnd : (repos_data.map RepoData.name).Nodup) (i : Nat)
    (hi : i < repos_data.length) :
    nameIdx repos_data (repos_data.get ⟨i, hi⟩).name = i := by
  unfold nameIdx
  have hi' : i < (repos_data.map RepoData.name).length := by simpa using hi
  have hmap : (repos_data.map RepoData.name).get ⟨i, hi'⟩ =
      (repos_data.get ⟨i, hi⟩).name := by
    simp [List.getElem_map]
  rw [← hmap]
  exact List.get_indexOf hnd ⟨i, hi'⟩

/-- Folding further insertions on top of two dict states that agree at `k`
preserves agreement at `k`. -/
theorem pyDict_foldl_congr (l : List (String × List String))
    (d1 d2 : String → Option (List String)) (k : String)
    (h : d1 k = d2 k) :
    (l.foldl (fun d kv => fun k => if k = kv.1 then some kv.2 else d k) d1) k
      = (l.foldl (fun d kv => fun k => if k = kv.1 then some kv.2 else d k)
          d2) k := by
  induction l generalizing d1 d2 with
  | nil => exact h
  | cons kv t ih =>
    apply ih
    by_cases hk : k = kv.1 <;> simp [hk, h]

/-- A key absent from the insertions is answered by the initial dict
state. -/
theorem pyDict_foldl_not_mem (l : List (String × List String))
    (d : String → Option (List String)) (k : String)
    (h : k ∉ l.map Prod.fst) :
    (l.foldl (fun d kv => fun k => if k = kv.1 then some kv.2 else d k) d) k
      = d k := by
  induction l generalizing d with
  | nil => rfl
  | cons kv t ih =>
    have hk : k ≠ kv.1 := by
      intro he; exact h (by simp [he])
    have ht : k ∉ t.map Prod.fst := by
      intro he; exact h (by simp [he])
    rw [List.foldl_cons, ih _ ht]
    simp [hk]

/-- With nodup keys, the Python dict built by in-order insertion answers
exactly like association-list lookup. -/
theorem pyDict_eq_lookup (l : List (String × List String))
    (hnd : (l.map Prod.fst).Nodup) (k : String) :
    pyDict l k = l.lookup k := by
  induction l with
  | nil => rfl
  | cons kv t ih =>
    have hnd2 : (kv.1 :: t.map Prod.fst).Nodup := by
      simpa only [List.map_cons] using hnd
    obtain ⟨hhead, htail⟩ := List.nodup_cons.mp hnd2
    by_cases hk : k = kv.1
    · have h1 : pyDict (kv :: t) k = some kv.2 := by
        unfold pyDict
        rw [List.foldl_cons]
        rw [pyDict_foldl_not_mem t _ k (by rw [hk]; exact hhead)]
        simp [hk]
      rw [h1]
      cases kv with
      | mk k1 v1 =>
        rw [List.lookup_cons]
        have hb : (k == k1) = true := by simpa using hk
        rw [hb]
    · have h1 : pyDict (kv :: t) k = pyDict t k := by
        unfold pyDict
        rw [List.foldl_cons]
        exact pyDict_foldl_congr t _ _ k (by simp [hk])
      rw [h1, ih htail]
      cases kv with
      | mk k1 v1 =>
        rw [List.lookup_cons]
        have : (k == k1) = false := by
          simp only [beq_eq_false_iff_ne, ne_eq]
          exact hk
        rw [this]

/-- With nodup keys, association-list lookup is invariant under permutation
of the list. -/
theorem lookup_perm (l1 l2 : List (String × List String))
    (hp : l1.Perm l2) (hnd : (l1.map Prod.fst).Nodup) (k : String) :
    l1.lookup k = l2.lookup k := by
  induction hp with
  | nil => rfl
  | cons x hp ih =>
    rename_i t1 t2
    cases x with
    | mk k1 v1 =>
      rw [List.lookup_cons, List.lookup_cons]
      cases hbeq : (k == k1) with
      | true => rfl
      | false =>
        have hnd2 : (k1 :: t1.map Prod.fst).Nodup := by
          simpa only [List.map_cons] using hnd
        exact ih (List.nodup_cons.mp hnd2).2
  | swap x y l =>
    cases x with
    | mk kx vx =>
      cases y with
      | mk ky vy =>
        have hnd2 : (ky :: kx :: l.map Prod.fst).Nodup := by
          simpa only [List.map_cons] using hnd
        have hxy : ky ≠ kx := by
          intro he
          exact (List.nodup_cons.mp hnd2).1 (by simp [he])
        rw [List.lookup_cons, List.lookup_cons, List.lookup_cons,
          List.lookup_cons]
        cases hbx : (k == kx) with
        | true =>
          have hby : (k == ky) = false := by
            simp only [beq_eq_false_iff_ne, ne_eq]
            intro he
            exact hxy (by rw [← he, eq_of_beq hbx])
          rw [hby]
        | false =>
          cases hby : (k == ky) with
          | true => rfl
          | false => rfl
  | trans h1 h2 ih1 ih2 =>
    rw [ih1 hnd, ih2 ((h1.map Prod.fst).nodup hnd)]

/-- With nodup keys, the Python dict built from any permutation of the
insertion sequence answers identically. -/
theorem pyDictGet_perm (l1 l2 : List (String × List String))
    (hp : l1.Perm l2) (hnd : (l1.map Prod.fst).Nodup) :
    pyDictGet l1 = pyDictGet l2 := by
  funext k
  unfold pyDictGet
  rw [pyDict_eq_lookup l1 hnd k,
    pyDict_eq_lookup l2 ((hp.map Prod.fst).nodup hnd) k,
    lookup_perm l1 l2 hp hnd k]

/-- The keys of the enrichment insertion sequence are the record names. -/
theorem buildTopicsAssoc_keys (repos_data : List RepoData)
    (topicsFetch : String → List String) :
    (buildTopicsAssoc repos_data topicsFetch).map Prod.fst =
      repos_data.map RepoData.name := by
  unfold buildTopicsAssoc
  rw [List.map_map]
  rfl

/-- Source and target of every built edge are record names at indices
`i < j`; under distinct names their extraction-order indices recover `i` and
`j`. -/
theorem buildEdges_nameIdx (repos_data : List RepoData)
    (topics : String → List String)
    (hnd : (repos_data.map RepoData.name).Nodup) (e : Edge)
    (he : e ∈ buildEdges repos_data topics) :
    e.source ≠ e.target ∧
    nameIdx repos_data e.source < nameIdx repos_data e.target := by
  obtain ⟨-, -, i, j, hi, hj, hij, hs, ht⟩ :=
    buildEdges_mem_inv repos_data topics e he
  have hsi : nameIdx repos_data e.source = i := by
    rw [hs]; exact nameIdx_get repos_data hnd i hi
  have htj : nameIdx repos_data e.target = j := by
    rw [ht]; exact nameIdx_get repos_data hnd j hj
  constructor
  · intro hst
    rw [hst] at hsi
    omega
  · omega

/-- The built edge list is strictly increasing in the lexicographic order of
the (source index, target index) pairs of its edges. -/
theorem buildEdges_pairwise_lex (repos_data : List RepoData)
    (topics : String → List String)
    (hnd : (repos_data.map RepoData.name).Nodup) :
    (buildEdges repos_data topics).Pairwise
      (fun e1 e2 =>
        nameIdx repos_data e1.source < nameIdx repos_data e2.source ∨
        (e1.source = e2.source ∧
          nameIdx repos_data e1.target < nameIdx repos_data e2.target)) := by
  unfold buildEdges
  rw [List.pairwise_filterMap]
  refine List.Pairwise.imp_of_mem ?_ (lexPairs_pairwise repos_data.length)
  intro p q hp hq hrel e1 he1 e2 he2
  obtain ⟨hp1, hp2⟩ := mem_lexPairs.mp hp
  obtain ⟨hq1, hq2⟩ := mem_lexPairs.mp hq
  rw [List.get?_eq_get (lt_trans hp1 hp2), List.get?_eq_get hp2] at he1
  rw [List.get?_eq_get (lt_trans hq1 hq2), List.get?_eq_get hq2] at he2
  dsimp only at he1 he2
  rw [Option.mem_def] at he1 he2
  split at he1
  case isFalse => cases he1
  split at he2
  case isFalse => cases he2
  injection he1 with he1
  injection he2 with he2
  subst he1
  subst he2
  dsimp only
  rw [nameIdx_get repos_data hnd p.1 (lt_trans hp1 hp2),
    nameIdx_get repos_data hnd q.1 (lt_trans hq1 hq2)]
  rcases hrel with h | ⟨h1, h2⟩
  · exact Or.inl h
  · right
    have hfin : (⟨p.1, lt_trans hp1 hp2⟩ : Fin repos_data.length) =
        ⟨q.1, lt_trans hq1 hq2⟩ := Fin.ext h1
    constructor
    · rw [hfin]
    · rw [nameIdx_get repos_data hnd p.2 hp2,
        nameIdx_get repos_data hnd q.2 hq2]
      exact h2

/-- C6: under distinct record names, (1) graph building from the enrichment
results inserted in ANY completion order (any permutation `l` of the
in-order insertion sequence) produces exactly the edge list of the canonical
order — the output does not depend on the order enrichment results were
produced; and that edge list (2) is strictly increasing in the lexicographic
order of (source index, target index), (3) has each edge's source strictly
preceding its target in extraction order with no self-edges, and (4) contains
no duplicate and no reversed pairs. -/
theorem edges_deterministic_and_lex_ordered (repos_data : List RepoData)
    (topicsFetch : String → List String)
    (l : List (String × List String))
    (hnd : (repos_data.map RepoData.name).Nodup)
    (hperm : l.Perm (buildTopicsAssoc repos_data topicsFetch)) :
    buildEdges repos_data (pyDictGet l) =
      buildEdges repos_data
        (pyDictGet (buildTopicsAssoc repos_data topicsFetch)) ∧
    (buildEdges repos_data (pyDictGet l)).Pairwise
      (fun e1 e2 =>
        nameIdx repos_data e1.source < nameIdx repos_data e2.source ∨
        (e1.source = e2.source ∧
          nameIdx repos_data e1.target < nameIdx repos_data e2.target)) ∧
    (∀ e ∈ buildEdges repos_data (pyDictGet l),
      e.source ≠ e.target ∧
      nameIdx repos_data e.source < nameIdx repos_data e.target) ∧
    (buildEdges repos_data (pyDictGet l)).Pairwise
      (fun e1 e2 =>
        ¬(e1.source = e2.source ∧ e1.target = e2.target) ∧
        ¬(e1.source = e2.target ∧ e1.target = e2.source)) := by
  have hkeys : (l.map Prod.fst).Nodup := by
    have hcanon : ((buildTopicsAssoc repos_data topicsFetch).map
        Prod.fst).Nodup := by
      rw [buildTopicsAssoc_keys]; exact hnd
    exact ((hperm.map Prod.fst).symm).nodup hcanon
  refine ⟨?_, buildEdges_pairwise_lex repos_data (pyDictGet l) hnd,
    fun e he => buildEdges_nameIdx repos_data (pyDictGet l) hnd e he, ?_⟩
  · rw [pyDictGet_perm l (buildTopicsAssoc repos_data topicsFetch)
      hperm hkeys]
  · refine List.Pairwise.imp_of_mem ?_
      (buildEdges_pairwise_lex repos_data (pyDictGet l) hnd)
    intro e1 e2 he1 he2 hrel
    obtain ⟨hne1, hlt1⟩ :=
      buildEdges_nameIdx repos_data (pyDictGet l) hnd e1 he1
    obtain ⟨hne2, hlt2⟩ :=
      buildEdges_nameIdx repos_data (pyDictGet l) hnd e2 he2
    constructor
    · rintro ⟨hs, ht⟩
      rcases hrel with h | ⟨h1, h2⟩
      · rw [hs] at h; omega
      · rw [ht] at h2; omega
    · rintro ⟨hs, ht⟩
      have h1 : nameIdx repos_data e1.source =
          nameIdx repos_data e2.target := by rw [hs]
      have h2 : nameIdx repos_data e1.target =
          nameIdx repos_data e2.source := by rw [ht]
      omega

/-- Witness for C6 at a concrete input: the fixture records with the
enrichment insertion sequence reversed (a different completion order). -/
theorem edges_deterministic_and_lex_ordered_witness :
    ((([recA, recB, recC] : List RepoData).map RepoData.name).Nodup ∧
      ((buildTopicsAssoc [recA, recB, recC] topicsABC).reverse).Perm
        (buildTopicsAssoc [recA, recB, recC] topicsABC)) ∧
    (buildEdges [recA, recB, recC]
        (pyDictGet ((buildTopicsAssoc [recA, recB, recC] topicsABC).reverse))
      = buildEdges [recA, recB, recC]
          (pyDictGet (buildTopicsAssoc [recA, recB, recC] topicsABC)) ∧
    (buildEdges [recA, recB, recC]
        (pyDictGet ((buildTopicsAssoc [recA, recB, recC]
          topicsABC).reverse))).Pairwise
      (fun e1 e2 =>
        nameIdx [recA, recB, recC] e1.source <
          nameIdx [recA, recB, recC] e2.source ∨
        (e1.source = e2.source ∧
          nameIdx [recA, recB, recC] e1.target <
            nameIdx [recA, recB, recC] e2.target)) ∧
    (∀ e ∈ buildEdges [recA, recB, recC]
        (pyDictGet ((buildTopicsAssoc [recA, recB, recC]
          topicsABC).reverse)),
      e.source ≠ e.target ∧
      nameIdx [recA, recB, recC] e.source <
        nameIdx [recA, recB, recC] e.target) ∧
    (buildEdges [recA, recB, recC]
        (pyDictGet ((buildTopicsAssoc [recA, recB, recC]
          topicsABC).reverse))).Pairwise
      (fun e1 e2 =>
        ¬(e1.source = e2.source ∧ e1.target = e2.target) ∧
        ¬(e1.source = e2.target ∧ e1.target = e2.source))) :=
  ⟨⟨by decide, by decide⟩,
   edges_deterministic_and_lex_ordered [recA, recB, recC] topicsABC
     ((buildTopicsAssoc [recA, recB, recC] topicsABC).reverse)
     (by decide) (by decide)⟩

end GTA
